import Mathlib

/-!
Verification of the object-ingestion and multipart-upload core of the
`garage` S3 API layer (`src/api/s3/put.rs`), via a shallow embedding.

Bytes are modelled as `List Nat` (each entry a byte value), byte streams as
`List Bytes` (the successful chunks of the request body), machine integers as
`Nat`/`Int`, and fallible code as `Except Error _`.  Table insertions are
recorded as an explicit list of `TableWrite` events in the order the code
issues them.  The cryptographic digests (MD5, SHA-256, BLAKE2) are opaque to
the control flow of the code under verification, so they are passed in as
function parameters.
-/

abbrev Bytes := List Nat

/-- Errors of the S3 API layer (`src/api/s3/error.rs` variants used by
`put.rs`). -/
inductive Error where
  | badRequest (msg : String)
  | forbidden (msg : String)
  | noSuchKey
  | noSuchUpload
  | entityTooSmall
  | invalidPartOrder
  | invalidPart
  | notImplemented (msg : String)
deriving DecidableEq, Repr

instance {ε α : Type} [DecidableEq ε] [DecidableEq α] : DecidableEq (Except ε α) :=
  fun x y =>
  match x, y with
  | .ok a, .ok b =>
    if h : a = b then .isTrue (h ▸ rfl) else .isFalse (fun hc => h (Except.ok.inj hc))
  | .error a, .error b =>
    if h : a = b then .isTrue (h ▸ rfl) else .isFalse (fun hc => h (Except.error.inj hc))
  | .ok _, .error _ => .isFalse (fun hc => Except.noConfusion hc)
  | .error _, .ok _ => .isFalse (fun hc => Except.noConfusion hc)

/-! ### Hex encoding and decoding (the `hex` crate: `hex::encode`, `hex::decode`) -/

/-- Lowercase hex digit for a value `< 16`, as produced by `hex::encode`. -/
def hexDigitChar (n : Nat) : Char :=
  if n < 10 then Char.ofNat (48 + n) else Char.ofNat (87 + n)

/-- Value of a hex digit character; `hex::decode` accepts both cases. -/
def hexVal (c : Char) : Option Nat :=
  if '0' ≤ c ∧ c ≤ '9' then some (c.toNat - 48)
  else if 'a' ≤ c ∧ c ≤ 'f' then some (c.toNat - 87)
  else if 'A' ≤ c ∧ c ≤ 'F' then some (c.toNat - 55)
  else none

/-- `hex::encode`, one byte to two lowercase hex characters. -/
def hexEncodeList : Bytes → List Char
  | [] => []
  | b :: rest => hexDigitChar (b / 16) :: hexDigitChar (b % 16) :: hexEncodeList rest

/-- `hex::encode` producing a string. -/
def hexEncode (b : Bytes) : String := String.mk (hexEncodeList b)

/-- `hex::decode`: fails on odd length or on any non-hex character. -/
def hexDecodeList : List Char → Option Bytes
  | [] => some []
  | [_] => none
  | c1 :: c2 :: rest =>
    match hexVal c1, hexVal c2, hexDecodeList rest with
    | some h, some l, some r => some ((16 * h + l) :: r)
    | _, _, _ => none

/-- `hex::decode` on a string. -/
def hexDecode (s : String) : Option Bytes := hexDecodeList s.data

/-! ### Base64 (standard alphabet with padding, `BASE64_STANDARD.encode`) -/

/-- Character of the standard base64 alphabet for a value `< 64`. -/
def base64Char (n : Nat) : Char :=
  if n < 26 then Char.ofNat (65 + n)
  else if n < 52 then Char.ofNat (97 + (n - 26))
  else if n < 62 then Char.ofNat (48 + (n - 52))
  else if n = 62 then '+'
  else '/'

/-- Standard base64 encoding of a byte list, with `=` padding. -/
def base64EncodeList : Bytes → List Char
  | [] => []
  | [b1] => [base64Char (b1 / 4 % 64), base64Char (b1 % 4 * 16), '=', '=']
  | [b1, b2] =>
    [base64Char (b1 / 4 % 64), base64Char ((b1 % 4 * 16 + b2 / 16) % 64),
     base64Char (b2 % 16 * 4 % 64), '=']
  | b1 :: b2 :: b3 :: rest =>
    base64Char (b1 / 4 % 64) :: base64Char ((b1 % 4 * 16 + b2 / 16) % 64) ::
    base64Char ((b2 % 16 * 4 + b3 / 64) % 64) :: base64Char (b3 % 64) ::
    base64EncodeList rest

/-- `BASE64_STANDARD.encode` producing a string. -/
def base64Encode (b : Bytes) : String := String.mk (base64EncodeList b)

/-- Rust `str::trim_matches('"')`: remove every leading and trailing `"`. -/
def trimQuotes (s : String) : String :=
  String.mk (((s.data.dropWhile (fun c => c = '\"')).reverse.dropWhile
    (fun c => c = '\"')).reverse)

/-- Rust `str::as_bytes` (UTF-8 bytes of a string). -/
def strBytes (s : String) : Bytes := s.toUTF8.toList.map (fun b => b.toNat)

/-! ### The stream chunker (`StreamChunker` in `put.rs`)

The body stream is a finite list of byte chunks; the internal `BytesBuf` is
modelled as a flat byte list (`extend` appends, `take_max k` removes up to `k`
front bytes). -/

structure StreamChunker where
  stream : List Bytes
  read_all : Bool
  block_size : Nat
  buf : Bytes
deriving DecidableEq, Repr

/-- `StreamChunker::new`. -/
def StreamChunker.new (stream : List Bytes) (block_size : Nat) : StreamChunker :=
  ⟨stream, false, block_size, []⟩

/-- Body of the `while !self.read_all && self.buf.len() < self.block_size`
loop of `StreamChunker::next`, entered with `read_all = false` and
`buf.length < block_size`: pull chunks from the stream into the buffer until
the buffer reaches `block_size` bytes (exiting with `read_all = false`) or
the stream ends (exiting with `read_all = true`). -/
def fillGo (block_size : Nat) (buf : Bytes) : List Bytes → StreamChunker
  | [] => ⟨[], true, block_size, buf⟩
  | b :: rest =>
    if (buf ++ b).length < block_size then fillGo block_size (buf ++ b) rest
    else ⟨rest, false, block_size, buf ++ b⟩

/-- The buffering loop of `StreamChunker::next`. -/
def StreamChunker.fill (c : StreamChunker) : StreamChunker :=
  if c.read_all ∨ ¬ c.buf.length < c.block_size then c
  else fillGo c.block_size c.buf c.stream

/-- `StreamChunker::next`: fill the buffer, then return `None` if it is
empty, else slice out at most `block_size` bytes. -/
def StreamChunker.next (c : StreamChunker) : Option Bytes × StreamChunker :=
  let c2 := c.fill
  if c2.buf.isEmpty then (none, c2)
  else (some (c2.buf.take c2.block_size), { c2 with buf := c2.buf.drop c2.block_size })

/-- Repeatedly call `next` until it yields no block, collecting the produced
blocks.  `fuel` is an upper bound on the number of calls; any
`fuel > total number of input bytes` is enough to exhaust the stream. -/
def StreamChunker.run (fuel : Nat) (c : StreamChunker) : List Bytes :=
  match fuel with
  | 0 => []
  | Nat.succ fuel =>
    match c.next with
    | (none, _) => []
    | (some b, c2) => b :: StreamChunker.run fuel c2

/-- The bytes not yet emitted: buffered bytes followed by unread stream. -/
def StreamChunker.sourceData (c : StreamChunker) : Bytes := c.buf ++ c.stream.flatten

/-- All blocks a chunker over `body` produces, with enough fuel to exhaust
the stream. -/
def chunkAll (block_size : Nat) (body : List Bytes) : List Bytes :=
  StreamChunker.run ((body.map List.length).sum + 1) (StreamChunker.new body block_size)

/-! ### Checksum validation (`ensure_checksum_matches`) -/

/-- `ensure_checksum_matches` from `put.rs`: the computed SHA-256 is checked
against the signed `content_sha256` first, then the base64 of the computed
MD5 against the (quote-trimmed) `content-md5` header. -/
def ensure_checksum_matches (data_md5sum : Bytes) (data_sha256sum : Bytes)
    (content_md5 : Option String) (content_sha256 : Option Bytes) :
    Except Error Unit :=
  let md5_check : Except Error Unit :=
    match content_md5 with
    | some expected_md5 =>
      if trimQuotes expected_md5 ≠ base64Encode data_md5sum then
        .error (.badRequest "Unable to validate content-md5")
      else .ok ()
    | none => .ok ()
  match content_sha256 with
  | some expected_sha256 =>
    if expected_sha256 ≠ data_sha256sum then
      .error (.badRequest "Unable to validate x-amz-content-sha256")
    else md5_check
  | none => md5_check

/-! ### Quota enforcement (`check_quotas`) -/

/-- Bucket quotas (from the bucket table; the field values are the two
optional limits read by `check_quotas`). -/
structure BucketQuotas where
  max_objects : Option Nat
  max_size : Option Nat
deriving DecidableEq, Repr

/-- `check_quotas` from `put.rs`.  `counter_objects`/`counter_bytes` are the
bucket's current counter values, `prev_counts` the `(objects, bytes)` counts
of the previous object under this key (`None` when there was none). -/
def check_quotas (quotas : BucketQuotas) (counter_objects counter_bytes : Int)
    (size : Nat) (prev_counts : Option (Int × Int)) : Except Error Unit :=
  if quotas.max_objects = none ∧ quotas.max_size = none then .ok ()
  else
    let prev := prev_counts.getD (0, 0)
    let cnt_obj_diff : Int := 1 - prev.1
    let cnt_size_diff : Int := (size : Int) - prev.2
    let size_check : Except Error Unit :=
      match quotas.max_size with
      | some ms =>
        if cnt_size_diff > 0 ∧ counter_bytes + cnt_size_diff > (ms : Int) then
          .error (.forbidden ("Bucket size quota is reached, maximum total size of objects for this bucket: " ++ toString ms))
        else .ok ()
      | none => .ok ()
    match quotas.max_objects with
    | some mo =>
      if cnt_obj_diff > 0 ∧ counter_objects + cnt_obj_diff > (mo : Int) then
        .error (.forbidden ("Object quota is reached, maximum objects for this bucket: " ++ toString mo))
      else size_check
    | none => size_check

/-! ### Data model (object, version and block-reference rows)

`object_table.rs` and `version_table.rs` are not part of the sources under
verification; the row types below are modelled from the specification
(section 3, "Data model"). -/

/-- Modelled from the spec: headers preserved on an object version (MIME
content type plus a string-to-string mapping). -/
structure ObjectVersionHeaders where
  content_type : String
  other : List (String × String)
deriving DecidableEq, Repr, Inhabited

/-- Metadata of a complete object version. -/
structure ObjectVersionMeta where
  headers : ObjectVersionHeaders
  size : Nat
  etag : String
deriving DecidableEq, Repr

/-- Data of a complete object version: inline payload or hash of the first
block. -/
inductive ObjectVersionData where
  | inline (meta : ObjectVersionMeta) (payload : Bytes)
  | first_block (meta : ObjectVersionMeta) (hash : Nat)
deriving DecidableEq, Repr

/-- State of an object version. -/
inductive ObjectVersionState where
  | uploading (headers : ObjectVersionHeaders)
  | complete (data : ObjectVersionData)
  | aborted
deriving DecidableEq, Repr

/-- A version entry of an object row. -/
structure ObjectVersion where
  uuid : Nat
  timestamp : Nat
  state : ObjectVersionState
deriving DecidableEq, Repr

/-- Modelled from the spec: `ObjectVersion::is_uploading` holds when the
version is in `Uploading` state. -/
def ObjectVersion.is_uploading (v : ObjectVersion) : Bool :=
  match v.state with
  | .uploading _ => true
  | _ => false

/-- An object row: `(bucket_id, key)` with its list of versions. -/
structure Object where
  bucket_id : Nat
  key : String
  versions : List ObjectVersion
deriving DecidableEq, Repr

/-- Sort order of versions inside an object row: by `(timestamp, uuid)`. -/
def versionBefore (a b : ObjectVersion) : Prop :=
  a.timestamp < b.timestamp ∨ (a.timestamp = b.timestamp ∧ a.uuid < b.uuid)

instance (a b : ObjectVersion) : Decidable (versionBefore a b) := by
  unfold versionBefore; infer_instance

/-- Insert a version preserving the `(timestamp, uuid)` order. -/
def insertVersion (v : ObjectVersion) : List ObjectVersion → List ObjectVersion
  | [] => [v]
  | w :: ws => if versionBefore v w then v :: w :: ws else w :: insertVersion v ws

/-- Modelled from the spec: `Object::new` builds a row whose version list is
kept sorted by `(timestamp, uuid)`. -/
def Object.new (bucket_id : Nat) (key : String) (versions : List ObjectVersion) :
    Object :=
  ⟨bucket_id, key, versions.foldl (fun acc v => insertVersion v acc) []⟩

/-- A block entry of a version row. -/
structure VersionBlock where
  hash : Nat
  size : Nat
deriving DecidableEq, Repr, Inhabited

/-- A version row: the per-upload block catalog.  `blocks` is the CRDT map
from `(part_number, offset)` to block, kept sorted by key; `parts_etags`
maps part numbers to their etags, sorted by part number. -/
structure Version where
  uuid : Nat
  bucket_id : Nat
  key : String
  deleted : Bool
  blocks : List ((Nat × Nat) × VersionBlock)
  parts_etags : List (Nat × String)
deriving DecidableEq, Repr

/-- `Version::new`: empty block and etag maps. -/
def Version.new (uuid : Nat) (bucket_id : Nat) (key : String) (deleted : Bool) :
    Version :=
  ⟨uuid, bucket_id, key, deleted, [], []⟩

/-- Sorted insert (last-writer-wins) into the `blocks` CRDT map. -/
def blocksPut (k : Nat × Nat) (v : VersionBlock) :
    List ((Nat × Nat) × VersionBlock) → List ((Nat × Nat) × VersionBlock)
  | [] => [(k, v)]
  | (k2, v2) :: rest =>
    if k = k2 then (k, v) :: rest
    else if k.1 < k2.1 ∨ (k.1 = k2.1 ∧ k.2 < k2.2) then (k, v) :: (k2, v2) :: rest
    else (k2, v2) :: blocksPut k v rest

/-- Sorted insert (last-writer-wins) into the `parts_etags` CRDT map. -/
def etagsPut (k : Nat) (v : String) : List (Nat × String) → List (Nat × String)
  | [] => [(k, v)]
  | (k2, v2) :: rest =>
    if k = k2 then (k, v) :: rest
    else if k < k2 then (k, v) :: (k2, v2) :: rest
    else (k2, v2) :: etagsPut k v rest

/-- Modelled from the spec: `Version::has_part_number` — the version row
already records this part number via `parts_etags`. -/
def Version.has_part_number (v : Version) (part_number : Nat) : Bool :=
  v.parts_etags.any (fun p => p.1 = part_number)

/-- Insert into a sorted duplicate-free list of part numbers (the `BTreeSet`
collected in `handle_complete_multipart_upload`). -/
def setInsert (x : Nat) : List Nat → List Nat
  | [] => [x]
  | y :: ys => if x = y then y :: ys else if x < y then x :: y :: ys else y :: setInsert x ys

/-- The sorted set of distinct part numbers appearing in `version.blocks`. -/
def blockPartsSet (v : Version) : List Nat :=
  (v.blocks.map (fun b => b.1.1)).foldl (fun acc pn => setInsert pn acc) []

/-- A metadata-table insertion performed by the handlers, in program order. -/
inductive TableWrite where
  | objectRow (o : Object)
  | versionRow (v : Version)
  | blockRefRow (block : Nat) (version : Nat) (deleted : Bool)
deriving DecidableEq, Repr

/-! ### Block writing (`read_and_put_blocks` / `put_block_meta`) -/

/-- Table writes issued by `read_and_put_blocks` for the given blocks of one
part: for each block, `put_block_meta` clones the base version row, records
the single `(part_number, offset) ↦ (hash, size)` entry, and inserts that
row together with a `BlockRef` row.  Offsets accumulate block lengths. -/
def blockMetaWrites (blake2 : Bytes → Nat) (base : Version) (part_number : Nat) :
    Nat → List Bytes → List TableWrite
  | _, [] => []
  | offset, b :: rest =>
    .versionRow { base with
        blocks := blocksPut (part_number, offset) ⟨blake2 b, b.length⟩ base.blocks }
    :: .blockRefRow (blake2 b) base.uuid false
    :: blockMetaWrites blake2 base part_number (offset + b.length) rest

/-! ### Single-object PUT (`save_stream`) -/

/-- Parameters of `save_stream` that are read from the environment: the
digest functions, the configured block size, the `INLINE_THRESHOLD`
constant, the generated version identity, request headers, client checksum
headers, and the quota inputs. -/
structure SaveStreamEnv where
  md5 : Bytes → Bytes
  sha256 : Bytes → Bytes
  blake2 : Bytes → Nat
  block_size : Nat
  inline_threshold : Nat
  bucket_id : Nat
  key : String
  headers : ObjectVersionHeaders
  version_uuid : Nat
  version_timestamp : Nat
  content_md5 : Option String
  content_sha256 : Option Bytes
  quotas : BucketQuotas
  counter_objects : Int
  counter_bytes : Int
  prev_counts : Option (Int × Int)

/-- `save_stream` from `put.rs`, as the list of table writes it performs and
its result.  The first chunker block decides between the inline fast path
(one `Complete(Inline)` object row) and the streaming path (an `Uploading`
object row, an empty version row, the block writes, then either the final
`Complete(FirstBlock)` row or — on checksum/quota failure — the `Aborted`
row scheduled by the `InterruptedCleanup` drop guard). -/
def save_stream (env : SaveStreamEnv) (body : List Bytes) :
    List TableWrite × Except Error (Nat × String) :=
  let blocks := chunkAll env.block_size body
  let first_block := blocks.headD []
  if first_block.length < env.inline_threshold then
    let data_md5sum := env.md5 first_block
    let data_md5sum_hex := hexEncode data_md5sum
    let data_sha256sum := env.sha256 first_block
    let size := first_block.length
    match ensure_checksum_matches data_md5sum data_sha256sum
        env.content_md5 env.content_sha256 with
    | .error e => ([], .error e)
    | .ok _ =>
      match check_quotas env.quotas env.counter_objects env.counter_bytes size
          env.prev_counts with
      | .error e => ([], .error e)
      | .ok _ =>
        let object_version : ObjectVersion :=
          ⟨env.version_uuid, env.version_timestamp,
            .complete (.inline ⟨env.headers, size, data_md5sum_hex⟩ first_block)⟩
        ([.objectRow (Object.new env.bucket_id env.key [object_version])],
         .ok (env.version_uuid, data_md5sum_hex))
  else
    let uploading_version : ObjectVersion :=
      ⟨env.version_uuid, env.version_timestamp, .uploading env.headers⟩
    let w1 : TableWrite := .objectRow (Object.new env.bucket_id env.key [uploading_version])
    let version := Version.new env.version_uuid env.bucket_id env.key false
    let w2 : TableWrite := .versionRow version
    let bw := blockMetaWrites env.blake2 version 1 0 blocks
    let all_data := blocks.flatten
    let data_md5sum := env.md5 all_data
    let total_size := all_data.length
    let abort_write : TableWrite :=
      .objectRow (Object.new env.bucket_id env.key
        [⟨env.version_uuid, env.version_timestamp, .aborted⟩])
    match ensure_checksum_matches data_md5sum (env.sha256 all_data)
        env.content_md5 env.content_sha256 with
    | .error e => ([w1, w2] ++ bw ++ [abort_write], .error e)
    | .ok _ =>
      match check_quotas env.quotas env.counter_objects env.counter_bytes total_size
          env.prev_counts with
      | .error e => ([w1, w2] ++ bw ++ [abort_write], .error e)
      | .ok _ =>
        let md5sum_hex := hexEncode data_md5sum
        let complete_version : ObjectVersion :=
          ⟨env.version_uuid, env.version_timestamp,
            .complete (.first_block ⟨env.headers, total_size, md5sum_hex⟩
              (env.blake2 first_block))⟩
        ([w1, w2] ++ bw ++
            [.objectRow (Object.new env.bucket_id env.key [complete_version])],
         .ok (env.version_uuid, md5sum_hex))

/-! ### Multipart part upload (`handle_put_part`) -/

/-- Environment of `handle_put_part`: digests, block size, the decoded
upload uuid, checksum headers and the request identity. -/
structure PutPartEnv where
  md5 : Bytes → Bytes
  sha256 : Bytes → Bytes
  blake2 : Bytes → Nat
  block_size : Nat
  bucket_id : Nat
  key : String
  version_uuid : Nat
  content_md5 : Option String
  content_sha256 : Option Bytes

/-- `handle_put_part` from `put.rs`: guards (non-empty body, object exists,
uploading version with the decoded uuid, part not already uploaded), then
the block-writing pipeline, checksum validation, and the final version row
carrying `parts_etags[part_number] = md5_hex`. -/
def handle_put_part (env : PutPartEnv) (object : Option Object)
    (version : Option Version) (body : List Bytes) (part_number : Nat) :
    List TableWrite × Except Error String :=
  let blocks := chunkAll env.block_size body
  match blocks.head? with
  | none => ([], .error (.badRequest "Empty body"))
  | some _ =>
  match object with
  | none => ([], .error (.badRequest "Object not found"))
  | some object =>
  if ¬ (object.versions.any (fun v => v.uuid == env.version_uuid && v.is_uploading)) then
    ([], .error .noSuchUpload)
  else
    let proceed : List TableWrite × Except Error String :=
      let new_version := Version.new env.version_uuid env.bucket_id env.key false
      let bw := blockMetaWrites env.blake2 new_version part_number 0 blocks
      let all_data := blocks.flatten
      let data_md5sum := env.md5 all_data
      match ensure_checksum_matches data_md5sum (env.sha256 all_data)
          env.content_md5 env.content_sha256 with
      | .error e => (bw, .error e)
      | .ok _ =>
        let data_md5sum_hex := hexEncode data_md5sum
        let final_version := { new_version with
          parts_etags := etagsPut part_number data_md5sum_hex new_version.parts_etags }
        (bw ++ [.versionRow final_version], .ok data_md5sum_hex)
    match version with
    | some v =>
      if v.has_part_number part_number then
        ([], .error (.badRequest
          ("Part number " ++ toString part_number ++ " has already been uploaded")))
      else proceed
    | none => proceed

/-! ### Multipart completion (`handle_complete_multipart_upload`) -/

/-- A `{part_number, etag}` pair parsed from the CompleteMultipartUpload
request body. -/
structure CompleteMultipartUploadPart where
  etag : String
  part_number : Nat
deriving DecidableEq, Repr, Inhabited

/-- Environment of `handle_complete_multipart_upload`: the MD5 function used
for the aggregate etag, the request identity, the decoded upload uuid, the
quota inputs, and the counts function giving the `(objects, bytes)` counts
of an existing object row (used as the previous object in the quota
re-check). -/
structure CompleteEnv where
  md5 : Bytes → Bytes
  bucket_id : Nat
  key : String
  version_uuid : Nat
  quotas : BucketQuotas
  counter_objects : Int
  counter_bytes : Int
  counts : Object → Int × Int

/-- `handle_complete_multipart_upload` from `put.rs`: locate the uploading
version, validate the part list, compute the aggregate etag and total size,
re-check quotas (aborting the version on failure), and finalize the object
row. -/
def handle_complete_multipart_upload (env : CompleteEnv)
    (body_list_of_parts : List CompleteMultipartUploadPart)
    (object : Option Object) (version : Option Version) :
    List TableWrite × Except Error String :=
  match object with
  | none => ([], .error .noSuchKey)
  | some object =>
  match object.versions.find? (fun v => v.uuid == env.version_uuid && v.is_uploading) with
  | none => ([], .error .noSuchUpload)
  | some object_version =>
  match version with
  | none => ([], .error .noSuchKey)
  | some version =>
  if version.blocks = [] then ([], .error (.badRequest "No data was uploaded"))
  else
  let headers := match object_version.state with
    | .uploading h => h
    | _ => default
  if body_list_of_parts = [] then ([], .error .entityTooSmall)
  else if ¬ (∀ p ∈ body_list_of_parts.zip body_list_of_parts.tail,
      p.1.part_number < p.2.part_number) then
    ([], .error .invalidPartOrder)
  else if (body_list_of_parts.headD default).part_number ≠ 1 ∨
      ¬ (∀ p ∈ body_list_of_parts.zip body_list_of_parts.tail,
        p.1.part_number + 1 = p.2.part_number) then
    ([], .error (.notImplemented "Garage does not support completing a Multipart upload with non-consecutive part numbers. This is a restriction of the Garage data model, which might be fixed in a future release. See issue #204 for more information on this topic."))
  else if ¬ (body_list_of_parts.map (fun x => (x.part_number, x.etag)) =
      version.parts_etags) then
    ([], .error .invalidPart)
  else if ¬ (body_list_of_parts.map (fun x => x.part_number) = blockPartsSet version) then
    ([], .error (.badRequest "Part numbers in block list and part list do not match. This can happen if a part was partially uploaded. Please abort the multipart upload and try again."))
  else
    let num_parts := body_list_of_parts.length
    let etag := hexEncode (env.md5
        ((version.parts_etags.map (fun p => strBytes p.2)).flatten))
      ++ "-" ++ toString num_parts
    let total_size := (version.blocks.map (fun x => x.2.size)).sum
    match check_quotas env.quotas env.counter_objects env.counter_bytes total_size
        (some (env.counts object)) with
    | .error e =>
      ([.objectRow (Object.new env.bucket_id env.key
          [{ object_version with state := .aborted }])], .error e)
    | .ok _ =>
      let final_version : ObjectVersion := { object_version with
        state := .complete (.first_block ⟨headers, total_size, etag⟩
          (version.blocks.headD default).2.hash) }
      ([.objectRow (Object.new env.bucket_id env.key [final_version])], .ok etag)

/-! ### Upload id decoding (`decode_upload_id`) -/

/-- `decode_upload_id` from `put.rs`: hex-decode the id and require exactly
32 bytes (the size of a version uuid); any failure is `NoSuchUpload`. -/
def decode_upload_id (id : String) : Except Error Bytes :=
  match hexDecode id with
  | none => .error .noSuchUpload
  | some id_bin =>
    if id_bin.length ≠ 32 then .error .noSuchUpload else .ok id_bin

/-! Lemmas leading to the chunker specification (claim C1). -/

lemma run_succ (fuel : Nat) (c : StreamChunker) :
    StreamChunker.run (fuel + 1) c =
      match c.next with
      | (none, _) => []
      | (some b, c2) => b :: StreamChunker.run fuel c2 := rfl

lemma fillGo_sourceData (bs : Nat) :
    ∀ (stream : List Bytes) (buf : Bytes),
      (fillGo bs buf stream).sourceData = buf ++ stream.flatten := by
  intro stream
  induction stream with
  | nil => intro buf; simp [fillGo, StreamChunker.sourceData]
  | cons b rest ih =>
    intro buf
    simp only [fillGo]
    split
    · rw [ih]; simp [StreamChunker.sourceData]
    · simp [StreamChunker.sourceData]

lemma fillGo_block_size (bs : Nat) :
    ∀ (stream : List Bytes) (buf : Bytes), (fillGo bs buf stream).block_size = bs := by
  intro stream
  induction stream with
  | nil => intro buf; simp [fillGo]
  | cons b rest ih =>
    intro buf
    simp only [fillGo]
    split
    · exact ih _
    · rfl

lemma fillGo_post (bs : Nat) :
    ∀ (stream : List Bytes) (buf : Bytes),
      (fillGo bs buf stream).read_all = true ∨ bs ≤ (fillGo bs buf stream).buf.length := by
  intro stream
  induction stream with
  | nil => intro buf; left; rfl
  | cons b rest ih =>
    intro buf
    simp only [fillGo]
    split
    · exact ih _
    · right; simp only []; omega

lemma fillGo_read_all_stream (bs : Nat) :
    ∀ (stream : List Bytes) (buf : Bytes),
      (fillGo bs buf stream).read_all = true → (fillGo bs buf stream).stream = [] := by
  intro stream
  induction stream with
  | nil => intro buf _; rfl
  | cons b rest ih =>
    intro buf
    simp only [fillGo]
    split
    · exact ih _
    · intro h; exact absurd h (by simp)

lemma fill_sourceData (c : StreamChunker) : c.fill.sourceData = c.sourceData := by
  unfold StreamChunker.fill
  split
  · rfl
  · rw [fillGo_sourceData]; rfl

lemma fill_block_size (c : StreamChunker) : c.fill.block_size = c.block_size := by
  unfold StreamChunker.fill
  split
  · rfl
  · rw [fillGo_block_size]

lemma fill_post (c : StreamChunker) :
    c.fill.read_all = true ∨ c.fill.block_size ≤ c.fill.buf.length := by
  unfold StreamChunker.fill
  split
  · rename_i h
    rcases h with h | h
    · left; exact h
    · right; omega
  · rw [fillGo_block_size]
    exact fillGo_post _ _ _

lemma fill_inv (c : StreamChunker) (hinv : c.read_all = true → c.stream = []) :
    c.fill.read_all = true → c.fill.stream = [] := by
  unfold StreamChunker.fill
  split
  · exact hinv
  · exact fillGo_read_all_stream _ _ _

lemma next_none_of_empty (c : StreamChunker) (h : c.sourceData = []) :
    c.next.1 = none := by
  have h2 : c.fill.sourceData = [] := by rw [fill_sourceData]; exact h
  have hbuf : c.fill.buf = [] := by
    have := List.append_eq_nil.mp h2
    exact this.1
  unfold StreamChunker.next
  simp [hbuf]

lemma run_spec :
    ∀ (n : Nat) (c : StreamChunker) (fuel : Nat),
      c.sourceData.length ≤ n →
      0 < c.block_size →
      (c.read_all = true → c.stream = []) →
      c.sourceData.length < fuel →
      (StreamChunker.run fuel c).flatten = c.sourceData ∧
      (∀ b ∈ StreamChunker.run fuel c, b ≠ []) ∧
      (∀ b ∈ StreamChunker.run fuel c, b.length ≤ c.block_size) ∧
      (∀ b ∈ (StreamChunker.run fuel c).dropLast, b.length = c.block_size) := by
  intro n
  induction n using Nat.strong_induction_on with
  | _ n ih =>
    intro c fuel hn hbs hinv hfuel
    obtain ⟨fuel, rfl⟩ : ∃ f, fuel = f + 1 := ⟨fuel - 1, by omega⟩
    by_cases hbuf : c.fill.buf.isEmpty
    · -- the buffer is empty after filling: the stream was empty, no block
      have hempty : c.sourceData = [] := by
        have hb : c.fill.buf = [] := by
          simpa using hbuf
        have hra : c.fill.read_all = true := by
          rcases fill_post c with h | h
          · exact h
          · rw [hb] at h
            rw [fill_block_size] at h
            simp at h
            omega
        have hs : c.fill.stream = [] := fill_inv c hinv hra
        have : c.fill.sourceData = [] := by
          unfold StreamChunker.sourceData
          rw [hb, hs]
          rfl
        rw [← fill_sourceData]
        exact this
      have hrun : StreamChunker.run (fuel + 1) c = [] := by
        unfold StreamChunker.run
        have hb : c.fill.buf = [] := by simpa using hbuf
        unfold StreamChunker.next
        simp [hb]
      rw [hrun, hempty]
      simp
    · -- a block is produced
      have hb : c.fill.buf ≠ [] := by
        simpa using hbuf
      set c2 := c.fill with hc2
      set b := c2.buf.take c2.block_size with hbdef
      set c3 : StreamChunker := { c2 with buf := c2.buf.drop c2.block_size } with hc3
      have hnext : c.next = (some b, c3) := by
        unfold StreamChunker.next
        simp only [← hc2]
        rw [if_neg (by simpa using hb)]
      have hrun : StreamChunker.run (fuel + 1) c = b :: StreamChunker.run fuel c3 := by
        rw [run_succ, hnext]
      have hbs2 : c2.block_size = c.block_size := fill_block_size c
      have hsplit : c.sourceData = b ++ c3.sourceData := by
        rw [← fill_sourceData]
        unfold StreamChunker.sourceData
        rw [hbdef]
        show c2.buf ++ c2.stream.flatten = _ ++ (c2.buf.drop c2.block_size ++ c2.stream.flatten)
        rw [← List.append_assoc, List.take_append_drop]
      have hblen : b.length = min c2.block_size c2.buf.length := by
        rw [hbdef]; exact List.length_take _ _
      have hbpos : 1 ≤ b.length := by
        rw [hblen]
        have : 1 ≤ c2.buf.length := by
          cases h : c2.buf with
          | nil => exact absurd h hb
          | cons x xs => simp
        have : 0 < c.block_size := hbs
        omega
      have hble : b.length ≤ c.block_size := by
        rw [hblen, ← hbs2]; omega
      have hinv3 : c3.read_all = true → c3.stream = [] := fill_inv c hinv
      have hbs3 : c3.block_size = c.block_size := hbs2
      have hlen3 : c3.sourceData.length < c.sourceData.length := by
        rw [hsplit]; simp; omega
      have IH := ih c3.sourceData.length (by omega) c3 fuel (le_refl _)
        (by rw [hbs3]; exact hbs) hinv3
        (by
          have : c.sourceData.length < fuel + 1 := hfuel
          omega)
      obtain ⟨ihflat, ihne, ihle, ihlast⟩ := IH
      rw [hrun]
      refine ⟨?_, ?_, ?_, ?_⟩
      · rw [List.flatten_cons, ihflat, hsplit]
      · intro x hx
        rw [List.mem_cons] at hx
        rcases hx with rfl | hx
        · intro hcon
          rw [hcon] at hbpos
          simp at hbpos
        · exact ihne _ hx
      · intro x hx
        rw [List.mem_cons] at hx
        rcases hx with rfl | hx
        · exact hble
        · rw [← hbs3]; exact ihle _ hx
      · intro x hx
        cases hrest : StreamChunker.run fuel c3 with
        | nil =>
          rw [hrest] at hx
          simp at hx
        | cons r rs =>
          rw [hrest] at hx
          rw [List.dropLast_cons_of_ne_nil (by simp), List.mem_cons] at hx
          rcases hx with rfl | hx
          · -- the head block must be full: more data follows
            have hr : r ≠ [] := ihne r (by rw [hrest]; exact List.mem_cons_self _ _)
            have hc3ne : c3.sourceData ≠ [] := by
              intro hcon
              have hfl : (StreamChunker.run fuel c3).flatten = [] := by rw [ihflat, hcon]
              rw [hrest] at hfl
              simp at hfl
              exact hr hfl.1
            have hfull : c2.block_size ≤ c2.buf.length := by
              rcases fill_post c with hra | hle2
              · have hs2 : c2.stream = [] := fill_inv c hinv hra
                have hdr : c3.sourceData = c2.buf.drop c2.block_size := by
                  unfold StreamChunker.sourceData
                  show c2.buf.drop c2.block_size ++ c2.stream.flatten = _
                  rw [hs2]
                  simp
                by_contra hcon
                apply hc3ne
                rw [hdr]
                have : c2.buf.length ≤ c2.block_size := by omega
                exact List.drop_eq_nil_of_le this
              · exact hle2
            rw [hblen, ← hbs2]
            omega
          · rw [← hbs3]
            exact ihlast _ (by rw [hrest]; exact hx)

/-- Claim C1: for every input byte stream and every `block_size > 0`, the
sequence of blocks produced by repeated `StreamChunker::next` calls is such
that every block except possibly the last has length exactly `block_size`,
the last block has length at most `block_size`, the concatenation of all
blocks equals the concatenation of the input chunks, and if the stream
yields zero total bytes the first call returns no block. -/
theorem stream_chunker_spec (stream : List Bytes) (k fuel : Nat) (hk : 0 < k)
    (hfuel : stream.flatten.length < fuel) :
    (StreamChunker.run fuel (StreamChunker.new stream k)).flatten = stream.flatten ∧
    (∀ b ∈ (StreamChunker.run fuel (StreamChunker.new stream k)).dropLast,
      b.length = k) ∧
    (∀ b ∈ StreamChunker.run fuel (StreamChunker.new stream k), b.length ≤ k) ∧
    (stream.flatten = [] → (StreamChunker.new stream k).next.1 = none) := by
  have hsd : (StreamChunker.new stream k).sourceData = stream.flatten := by
    unfold StreamChunker.sourceData StreamChunker.new
    simp
  have h := run_spec (StreamChunker.new stream k).sourceData.length
    (StreamChunker.new stream k) fuel (le_refl _) hk
    (by intro hcon; exact absurd hcon (by simp [StreamChunker.new]))
    (by rw [hsd]; exact hfuel)
  obtain ⟨h1, _, h3, h4⟩ := h
  refine ⟨by rw [h1, hsd], ?_, ?_, ?_⟩
  · intro b hb
    have := h4 b hb
    simpa [StreamChunker.new] using this
  · intro b hb
    have := h3 b hb
    simpa [StreamChunker.new] using this
  · intro hz
    exact next_none_of_empty _ (by rw [hsd]; exact hz)

/-- Witness for C1 at a concrete input. -/
theorem stream_chunker_spec_witness :
    (StreamChunker.run 4 (StreamChunker.new [[1, 2, 3]] 2)).flatten =
      List.flatten [[1, 2, 3]] ∧
    (∀ b ∈ (StreamChunker.run 4 (StreamChunker.new [[1, 2, 3]] 2)).dropLast,
      b.length = 2) ∧
    (∀ b ∈ StreamChunker.run 4 (StreamChunker.new [[1, 2, 3]] 2), b.length ≤ 2) ∧
    (List.flatten [[1, 2, 3]] = [] → (StreamChunker.new [[1, 2, 3]] 2).next.1 = none) :=
  stream_chunker_spec [[1, 2, 3]] 2 4 (by decide) (by decide)

/-! Lemmas about hex encoding and decoding (claim C9). -/

lemma hexVal_hexDigitChar (n : Nat) (h : n < 16) :
    hexVal (hexDigitChar n) = some n := by
  interval_cases n <;> decide

lemma hexDecodeList_hexEncodeList (l : Bytes) (h : ∀ b ∈ l, b < 256) :
    hexDecodeList (hexEncodeList l) = some l := by
  induction l with
  | nil => rfl
  | cons b rest ih =>
    have hb : b < 256 := h b (List.mem_cons_self _ _)
    have h1 : hexVal (hexDigitChar (b / 16)) = some (b / 16) :=
      hexVal_hexDigitChar _ (by omega)
    have h2 : hexVal (hexDigitChar (b % 16)) = some (b % 16) :=
      hexVal_hexDigitChar _ (by omega)
    have hrest := ih (fun x hx => h x (List.mem_cons_of_mem _ hx))
    simp only [hexEncodeList, hexDecodeList, h1, h2, hrest]
    have hb16 : 16 * (b / 16) + b % 16 = b := by omega
    rw [hb16]

lemma hexEncodeList_length (l : Bytes) : (hexEncodeList l).length = 2 * l.length := by
  induction l with
  | nil => rfl
  | cons b rest ih => simp [hexEncodeList, ih]; omega

lemma twoStepInduction {P : List Char → Prop} (h0 : P []) (h1 : ∀ c, P [c])
    (h2 : ∀ c1 c2 rest, P rest → P (c1 :: c2 :: rest)) : ∀ l, P l
  | [] => h0
  | [c] => h1 c
  | c1 :: c2 :: rest => h2 c1 c2 rest (twoStepInduction h0 h1 h2 rest)

lemma hexDecodeList_some_length :
    ∀ (cs : List Char) (r : Bytes), hexDecodeList cs = some r →
      cs.length = 2 * r.length := by
  intro cs
  induction cs using twoStepInduction with
  | h0 =>
    intro r hr
    simp only [hexDecodeList, Option.some.injEq] at hr
    subst hr
    rfl
  | h1 c =>
    intro r hr
    simp [hexDecodeList] at hr
  | h2 c1 c2 rest ih =>
    intro r hr
    simp only [hexDecodeList] at hr
    rcases hv1 : hexVal c1 with _ | h1 <;> rw [hv1] at hr <;> try simp at hr
    rcases hv2 : hexVal c2 with _ | h2 <;> rw [hv2] at hr <;> try simp at hr
    rcases hv3 : hexDecodeList rest with _ | r3 <;> rw [hv3] at hr <;> try simp at hr
    have := ih r3 hv3
    subst hr
    simp
    omega

lemma hexDecodeList_isSome_iff :
    ∀ cs : List Char, (hexDecodeList cs).isSome ↔
      (cs.length % 2 = 0 ∧ ∀ c ∈ cs, (hexVal c).isSome) := by
  intro cs
  induction cs using twoStepInduction with
  | h0 => simp [hexDecodeList]
  | h1 c => simp [hexDecodeList]
  | h2 c1 c2 rest ih =>
    constructor
    · intro h
      simp only [hexDecodeList] at h
      rcases hv1 : hexVal c1 with _ | h1 <;> rw [hv1] at h <;> try simp at h
      rcases hv2 : hexVal c2 with _ | h2 <;> rw [hv2] at h <;> try simp at h
      rcases hv3 : hexDecodeList rest with _ | r3 <;> rw [hv3] at h <;> try simp at h
      have hih := ih.mp (by rw [hv3]; rfl)
      refine ⟨by simp; omega, ?_⟩
      · intro c hc
        rcases List.mem_cons.mp hc with rfl | hc
        · rw [hv1]; rfl
        rcases List.mem_cons.mp hc with rfl | hc
        · rw [hv2]; rfl
        · exact hih.2 c hc
    · rintro ⟨hlen, hall⟩
      have hv1 : (hexVal c1).isSome := hall c1 (List.mem_cons_self _ _)
      have hv2 : (hexVal c2).isSome :=
        hall c2 (List.mem_cons_of_mem _ (List.mem_cons_self _ _))
      have hrest : (hexDecodeList rest).isSome := by
        apply ih.mpr
        refine ⟨by simp at hlen; omega, ?_⟩
        intro c hc
        exact hall c (List.mem_cons_of_mem _ (List.mem_cons_of_mem _ hc))
      obtain ⟨a1, ha1⟩ := Option.isSome_iff_exists.mp hv1
      obtain ⟨a2, ha2⟩ := Option.isSome_iff_exists.mp hv2
      obtain ⟨a3, ha3⟩ := Option.isSome_iff_exists.mp hrest
      simp only [hexDecodeList, ha1, ha2, ha3]
      rfl

/-- Claim C9 counterexample: the lowercase hex encoding of a 16-byte uuid
has 32 hex characters, yet `decode_upload_id` rejects it with
`NoSuchUpload` (the code demands 32 decoded bytes, hence 64 characters). -/
theorem decode_upload_id_cex :
    (hexEncode (List.replicate 16 0)).data.length = 32 ∧
    (∀ c ∈ (hexEncode (List.replicate 16 0)).data, (hexVal c).isSome) ∧
    decode_upload_id (hexEncode (List.replicate 16 0)) =
      .error .noSuchUpload := by
  refine ⟨by decide, by decide, by rfl⟩

/-- Claim C9 (amended): `decode_upload_id` succeeds exactly on strings of 64
hex characters (the hex encoding of the 32-byte version uuid), and fails
with `NoSuchUpload` on every other input; in particular it accepts the
lowercase hex encoding of every 32-byte uuid. -/
theorem decode_upload_id_spec :
    (∀ u : Bytes, u.length = 32 → (∀ b ∈ u, b < 256) →
      decode_upload_id (hexEncode u) = .ok u) ∧
    (∀ s : String, (∃ b, decode_upload_id s = .ok b) ↔
      (s.data.length = 64 ∧ ∀ c ∈ s.data, (hexVal c).isSome)) ∧
    (∀ s : String, (∃ b, decode_upload_id s = .ok b) ∨
      decode_upload_id s = .error .noSuchUpload) := by
  refine ⟨?_, ?_, ?_⟩
  · intro u hlen hbytes
    unfold decode_upload_id hexDecode hexEncode
    rw [show (String.mk (hexEncodeList u)).data = hexEncodeList u from rfl]
    rw [hexDecodeList_hexEncodeList u hbytes]
    simp [hlen]
  · intro s
    constructor
    · rintro ⟨b, hb⟩
      unfold decode_upload_id hexDecode at hb
      rcases hv : hexDecodeList s.data with _ | r <;> rw [hv] at hb
      · simp at hb
      · by_cases hlen : r.length = 32
        · have h64 := hexDecodeList_some_length s.data r hv
          refine ⟨by omega, ?_⟩
          have := (hexDecodeList_isSome_iff s.data).mp (by rw [hv]; rfl)
          exact this.2
        · simp [hlen] at hb
    · rintro ⟨hlen, hall⟩
      have hsome : (hexDecodeList s.data).isSome :=
        (hexDecodeList_isSome_iff s.data).mpr ⟨by omega, hall⟩
      obtain ⟨r, hr⟩ := Option.isSome_iff_exists.mp hsome
      have h2 := hexDecodeList_some_length s.data r hr
      have hr32 : r.length = 32 := by omega
      refine ⟨r, ?_⟩
      unfold decode_upload_id hexDecode
      rw [hr]
      simp [hr32]
  · intro s
    unfold decode_upload_id hexDecode
    rcases hv : hexDecodeList s.data with _ | r
    · right; rfl
    · by_cases hlen : r.length = 32
      · left; exact ⟨r, by simp [hlen]⟩
      · right; simp [hlen]

/-- Witness for the amended C9 at a concrete input. -/
theorem decode_upload_id_spec_witness :
    decode_upload_id (hexEncode (List.replicate 32 0)) =
      .ok (List.replicate 32 0) :=
  decode_upload_id_spec.1 (List.replicate 32 0) (by decide) (by decide)

/-- Claim C4: `ensure_checksum_matches` returns `Ok` iff the provided
`content_sha256` (if any) equals the computed SHA-256 and the quote-trimmed
`content_md5` (if any) equals the standard base64 encoding of the computed
MD5; a failing SHA-256 check yields the x-amz-content-sha256 `BadRequest`,
and a failing MD5 check (with the SHA-256 condition holding) yields the
content-md5 `BadRequest`. -/
theorem ensure_checksum_matches_spec (dmd5 dsha : Bytes) (cmd5 : Option String)
    (csha : Option Bytes) :
    (ensure_checksum_matches dmd5 dsha cmd5 csha = .ok () ↔
      ((csha = none ∨ csha = some dsha) ∧
       (∀ m, cmd5 = some m → trimQuotes m = base64Encode dmd5))) ∧
    (∀ e, csha = some e → e ≠ dsha →
      ensure_checksum_matches dmd5 dsha cmd5 csha =
        .error (.badRequest "Unable to validate x-amz-content-sha256")) ∧
    (∀ m, (csha = none ∨ csha = some dsha) → cmd5 = some m →
      trimQuotes m ≠ base64Encode dmd5 →
      ensure_checksum_matches dmd5 dsha cmd5 csha =
        .error (.badRequest "Unable to validate content-md5")) := by
  unfold ensure_checksum_matches
  rcases csha with _ | e <;> rcases cmd5 with _ | m
  · simp
  · by_cases h : trimQuotes m = base64Encode dmd5 <;> simp [h]
  · by_cases h : e = dsha <;> simp [h]
  · by_cases h : e = dsha <;> by_cases h2 : trimQuotes m = base64Encode dmd5 <;>
      simp [h, h2]

/-- Witness for C4 at a concrete input. -/
theorem ensure_checksum_matches_spec_witness :
    ensure_checksum_matches [1] [2] (some "x") (some [9]) =
      .error (.badRequest "Unable to validate x-amz-content-sha256") :=
  (ensure_checksum_matches_spec [1] [2] (some "x") (some [9])).2.1 [9] rfl (by decide)

/-- Claim C5: `check_quotas` returns `Ok` when no quota is set, rejects with
`Forbidden` exactly when a positive object-count or size diff would push the
corresponding counter past a configured limit, and never rejects a write
whose diffs are both non-positive. -/
theorem check_quotas_spec (q : BucketQuotas) (co cb : Int) (size : Nat)
    (prev : Option (Int × Int)) :
    (q.max_objects = none ∧ q.max_size = none →
      check_quotas q co cb size prev = .ok ()) ∧
    (check_quotas q co cb size prev = .ok () ↔
      ¬ ((∃ mo, q.max_objects = some mo ∧ 1 - (prev.getD (0, 0)).1 > 0 ∧
            co + (1 - (prev.getD (0, 0)).1) > (mo : Int)) ∨
         (∃ ms, q.max_size = some ms ∧ (size : Int) - (prev.getD (0, 0)).2 > 0 ∧
            cb + ((size : Int) - (prev.getD (0, 0)).2) > (ms : Int)))) ∧
    ((∃ msg, check_quotas q co cb size prev = .error (.forbidden msg)) ↔
      ((∃ mo, q.max_objects = some mo ∧ 1 - (prev.getD (0, 0)).1 > 0 ∧
          co + (1 - (prev.getD (0, 0)).1) > (mo : Int)) ∨
       (∃ ms, q.max_size = some ms ∧ (size : Int) - (prev.getD (0, 0)).2 > 0 ∧
          cb + ((size : Int) - (prev.getD (0, 0)).2) > (ms : Int)))) ∧
    (1 - (prev.getD (0, 0)).1 ≤ 0 ∧ (size : Int) - (prev.getD (0, 0)).2 ≤ 0 →
      check_quotas q co cb size prev = .ok ()) := by
  obtain ⟨mo, ms⟩ := q
  rcases prev with _ | ⟨po, ps⟩ <;> rcases mo with _ | mo <;> rcases ms with _ | ms <;>
    simp only [check_quotas, Option.getD] <;>
    split_ifs <;> simp_all

/-- Witness for C5 at a concrete input (a shrinking overwrite over quota is
not rejected). -/
theorem check_quotas_spec_witness :
    check_quotas ⟨some 1, some 10⟩ 5 100 1 (some (1, 10)) = .ok () :=
  (check_quotas_spec ⟨some 1, some 10⟩ 5 100 1 (some (1, 10))).2.2.2
    (by constructor <;> decide)

lemma getLast?_append_singleton {α : Type} (l : List α) (x : α) :
    (l ++ [x]).getLast? = some x := by
  rw [List.getLast?_concat]

/-- Claim C6 counterexample: with a non-empty body and a missing object row,
`handle_put_part` fails with `BadRequest("Object not found")`, not with
`NoSuchUpload` as the claim states. -/
theorem handle_put_part_cex :
    handle_put_part ⟨fun _ => [0], fun _ => [0], fun _ => 0, 4, 0, "k", 7, none, none⟩
      none none [[1]] 1 =
      ([], .error (.badRequest "Object not found")) ∧
    Error.badRequest "Object not found" ≠ Error.noSuchUpload :=
  ⟨rfl, by decide⟩

/-- Claim C6 (amended): an absent first chunker block fails with
`BadRequest("Empty body")`; a missing object row fails with
`BadRequest("Object not found")`; an object row without an `Uploading`
version carrying the decoded upload uuid fails with `NoSuchUpload`; a
version row already recording this part number fails with the
"already been uploaded" `BadRequest`; and a successful `PutPart` ends with a
version-row write recording the part number, so a retry against that row is
rejected. -/
theorem handle_put_part_spec :
    (∀ (env : PutPartEnv) (object : Option Object) (version : Option Version)
        (body : List Bytes) (pn : Nat),
      (chunkAll env.block_size body).head? = none →
      handle_put_part env object version body pn =
        ([], .error (.badRequest "Empty body"))) ∧
    (∀ (env : PutPartEnv) (version : Option Version) (body : List Bytes)
        (pn : Nat) (fb : Bytes),
      (chunkAll env.block_size body).head? = some fb →
      handle_put_part env none version body pn =
        ([], .error (.badRequest "Object not found"))) ∧
    (∀ (env : PutPartEnv) (obj : Object) (version : Option Version)
        (body : List Bytes) (pn : Nat) (fb : Bytes),
      (chunkAll env.block_size body).head? = some fb →
      obj.versions.any (fun v => v.uuid == env.version_uuid && v.is_uploading) = false →
      handle_put_part env (some obj) version body pn =
        ([], .error .noSuchUpload)) ∧
    (∀ (env : PutPartEnv) (obj : Object) (v : Version) (body : List Bytes)
        (pn : Nat) (fb : Bytes),
      (chunkAll env.block_size body).head? = some fb →
      obj.versions.any (fun w => w.uuid == env.version_uuid && w.is_uploading) = true →
      v.has_part_number pn = true →
      handle_put_part env (some obj) (some v) body pn =
        ([], .error (.badRequest
          ("Part number " ++ toString pn ++ " has already been uploaded")))) ∧
    (∀ (env : PutPartEnv) (object : Option Object) (version : Option Version)
        (body : List Bytes) (pn : Nat) (ws : List TableWrite) (etag : String),
      handle_put_part env object version body pn = (ws, .ok etag) →
      ∃ fv, ws.getLast? = some (.versionRow fv) ∧ fv.has_part_number pn = true) := by
  refine ⟨?_, ?_, ?_, ?_, ?_⟩
  · intro env object version body pn h
    simp only [handle_put_part, h]
  · intro env version body pn fb h
    simp only [handle_put_part, h]
  · intro env obj version body pn fb h hany
    simp only [handle_put_part, h, hany]
    simp
  · intro env obj v body pn fb h hany hpart
    simp only [handle_put_part, h, hany, hpart]
    simp
  · intro env object version body pn ws etag h
    simp only [handle_put_part] at h
    split at h
    · simp at h
    split at h
    · simp at h
    split at h
    · simp at h
    split at h
    · split at h
      · simp at h
      · split at h
        · simp at h
        · rw [Prod.mk.injEq] at h
          obtain ⟨hws, hetag⟩ := h
          subst hws
          exact ⟨_, getLast?_append_singleton _ _,
            by simp [Version.has_part_number, Version.new, etagsPut]⟩
    · split at h
      · simp at h
      · rw [Prod.mk.injEq] at h
        obtain ⟨hws, hetag⟩ := h
        subst hws
        exact ⟨_, getLast?_append_singleton _ _,
          by simp [Version.has_part_number, Version.new, etagsPut]⟩

/-- Witness for the amended C6 at a concrete input (retry of an already
uploaded part number is rejected). -/
theorem handle_put_part_spec_witness :
    handle_put_part ⟨fun _ => [0], fun _ => [0], fun _ => 0, 4, 0, "k", 7, none, none⟩
      (some ⟨0, "k", [⟨7, 5, .uploading ⟨"blob", []⟩⟩]⟩)
      (some ⟨7, 0, "k", false, [], [(1, "e")]⟩) [[1]] 1 =
      ([], .error (.badRequest "Part number 1 has already been uploaded")) :=
  handle_put_part_spec.2.2.2.1
    ⟨fun _ => [0], fun _ => [0], fun _ => 0, 4, 0, "k", 7, none, none⟩
    ⟨0, "k", [⟨7, 5, .uploading ⟨"blob", []⟩⟩]⟩
    ⟨7, 0, "k", false, [], [(1, "e")]⟩ [[1]] 1 [1] rfl rfl rfl

/-- Claim C2 counterexample: on an existing object version in `Uploading`
state whose version row has an empty block list, an empty part list fails
with `BadRequest("No data was uploaded")`, not with `EntityTooSmall`. -/
theorem handle_complete_cex :
    handle_complete_multipart_upload
      ⟨fun _ => [0], 0, "k", 7, ⟨none, none⟩, 0, 0, fun _ => (0, 0)⟩
      [] (some ⟨0, "k", [⟨7, 5, .uploading ⟨"blob", []⟩⟩]⟩)
      (some ⟨7, 0, "k", false, [], []⟩) =
      ([], .error (.badRequest "No data was uploaded")) ∧
    Error.badRequest "No data was uploaded" ≠ Error.entityTooSmall :=
  ⟨rfl, by decide⟩

/-- Claim C2 (amended): for a CompleteMultipartUpload on an existing object
version in `Uploading` state whose version row has a non-empty block list,
the part-list validation checks run in order: an empty part list fails with
`EntityTooSmall`; a non-strictly-increasing part-number sequence fails with
`InvalidPartOrder`; a strictly increasing sequence that does not start at 1
or is not consecutive fails with `NotImplemented`; a pair sequence differing
from the stored `parts_etags` items fails with `InvalidPart`; and a part
number sequence differing from the distinct part numbers of the stored
blocks fails with the part-mismatch `BadRequest`. -/
theorem handle_complete_validation_spec :
    ∀ (env : CompleteEnv) (parts : List CompleteMultipartUploadPart)
      (obj : Object) (v : Version) (ov : ObjectVersion),
      obj.versions.find? (fun w => w.uuid == env.version_uuid && w.is_uploading) =
        some ov →
      v.blocks ≠ [] →
      ((parts = [] →
        handle_complete_multipart_upload env parts (some obj) (some v) =
          ([], .error .entityTooSmall)) ∧
       (parts ≠ [] →
        ¬ (∀ p ∈ parts.zip parts.tail, p.1.part_number < p.2.part_number) →
        handle_complete_multipart_upload env parts (some obj) (some v) =
          ([], .error .invalidPartOrder)) ∧
       (parts ≠ [] →
        (∀ p ∈ parts.zip parts.tail, p.1.part_number < p.2.part_number) →
        ((parts.headD default).part_number ≠ 1 ∨
          ¬ (∀ p ∈ parts.zip parts.tail, p.1.part_number + 1 = p.2.part_number)) →
        (∃ m, handle_complete_multipart_upload env parts (some obj) (some v) =
          ([], .error (.notImplemented m)))) ∧
       (parts ≠ [] →
        (∀ p ∈ parts.zip parts.tail, p.1.part_number < p.2.part_number) →
        (parts.headD default).part_number = 1 →
        (∀ p ∈ parts.zip parts.tail, p.1.part_number + 1 = p.2.part_number) →
        parts.map (fun x => (x.part_number, x.etag)) ≠ v.parts_etags →
        handle_complete_multipart_upload env parts (some obj) (some v) =
          ([], .error .invalidPart)) ∧
       (parts ≠ [] →
        (∀ p ∈ parts.zip parts.tail, p.1.part_number < p.2.part_number) →
        (parts.headD default).part_number = 1 →
        (∀ p ∈ parts.zip parts.tail, p.1.part_number + 1 = p.2.part_number) →
        parts.map (fun x => (x.part_number, x.etag)) = v.parts_etags →
        parts.map (fun x => x.part_number) ≠ blockPartsSet v →
        handle_complete_multipart_upload env parts (some obj) (some v) =
          ([], .error (.badRequest "Part numbers in block list and part list do not match. This can happen if a part was partially uploaded. Please abort the multipart upload and try again.")))) := by
  intro env parts obj v ov hfind hblocks
  refine ⟨?_, ?_, ?_, ?_, ?_⟩
  · intro hparts
    simp only [handle_complete_multipart_upload, hfind]
    rw [if_neg hblocks, if_pos hparts]
  · intro hparts hord
    simp only [handle_complete_multipart_upload, hfind]
    rw [if_neg hblocks, if_neg hparts, if_pos hord]
  · intro hparts hord hcons
    simp only [handle_complete_multipart_upload, hfind]
    rw [if_neg hblocks, if_neg hparts, if_neg (not_not_intro hord), if_pos hcons]
    exact ⟨_, rfl⟩
  · intro hparts hord h1 hcons het
    simp only [handle_complete_multipart_upload, hfind]
    rw [if_neg hblocks, if_neg hparts, if_neg (not_not_intro hord),
      if_neg (by push_neg; exact ⟨h1, hcons⟩), if_pos het]
  · intro hparts hord h1 hcons het hbp
    simp only [handle_complete_multipart_upload, hfind]
    rw [if_neg hblocks, if_neg hparts, if_neg (not_not_intro hord),
      if_neg (by push_neg; exact ⟨h1, hcons⟩), if_neg (not_not_intro het),
      if_pos hbp]

/-- Witness for the amended C2 at a concrete input (out-of-order parts
`[2, 1]` are rejected with `InvalidPartOrder`). -/
theorem handle_complete_validation_spec_witness :
    handle_complete_multipart_upload
      ⟨fun _ => [0], 0, "k", 7, ⟨none, none⟩, 0, 0, fun _ => (0, 0)⟩
      [⟨"e2", 2⟩, ⟨"e1", 1⟩] (some ⟨0, "k", [⟨7, 5, .uploading ⟨"blob", []⟩⟩]⟩)
      (some ⟨7, 0, "k", false, [((1, 0), ⟨99, 5⟩)], [(1, "e1")]⟩) =
      ([], .error .invalidPartOrder) :=
  (handle_complete_validation_spec
    ⟨fun _ => [0], 0, "k", 7, ⟨none, none⟩, 0, 0, fun _ => (0, 0)⟩
    [⟨"e2", 2⟩, ⟨"e1", 1⟩] ⟨0, "k", [⟨7, 5, .uploading ⟨"blob", []⟩⟩]⟩
    ⟨7, 0, "k", false, [((1, 0), ⟨99, 5⟩)], [(1, "e1")]⟩
    ⟨7, 5, .uploading ⟨"blob", []⟩⟩ rfl (by decide)).2.1
    (by decide) (by decide)

lemma check_quotas_error_forbidden :
    ∀ (q : BucketQuotas) (co cb : Int) (size : Nat) (prev : Option (Int × Int))
      (e : Error),
      check_quotas q co cb size prev = .error e → ∃ msg, e = .forbidden msg := by
  intro q co cb size prev e
  obtain ⟨mo, ms⟩ := q
  rcases mo with _ | mo <;> rcases ms with _ | ms <;>
    simp only [check_quotas] <;> split_ifs <;> intro h <;>
    first
      | exact ⟨_, (Except.error.inj h).symm⟩
      | exact absurd h (by simp)

/-- Claim C8: when every part validation passes but the re-run quota check
fails, `handle_complete_multipart_upload` writes the object row with the
same version (same uuid and timestamp) in `Aborted` state, writes nothing
else (in particular no `Complete` version), and propagates the `Forbidden`
error. -/
theorem handle_complete_quota_abort_spec :
    ∀ (env : CompleteEnv) (parts : List CompleteMultipartUploadPart)
      (obj : Object) (v : Version) (ov : ObjectVersion) (e : Error),
      obj.versions.find? (fun w => w.uuid == env.version_uuid && w.is_uploading) =
        some ov →
      v.blocks ≠ [] →
      parts ≠ [] →
      (∀ p ∈ parts.zip parts.tail, p.1.part_number < p.2.part_number) →
      (parts.headD default).part_number = 1 →
      (∀ p ∈ parts.zip parts.tail, p.1.part_number + 1 = p.2.part_number) →
      parts.map (fun x => (x.part_number, x.etag)) = v.parts_etags →
      parts.map (fun x => x.part_number) = blockPartsSet v →
      check_quotas env.quotas env.counter_objects env.counter_bytes
        ((v.blocks.map (fun x => x.2.size)).sum) (some (env.counts obj)) =
        .error e →
      (handle_complete_multipart_upload env parts (some obj) (some v) =
        ([.objectRow (Object.new env.bucket_id env.key
          [{ ov with state := .aborted }])], .error e) ∧
       ∃ msg, e = .forbidden msg) := by
  intro env parts obj v ov e hfind hblocks hparts hord h1 hcons het hbp hq
  constructor
  · simp only [handle_complete_multipart_upload, hfind]
    rw [if_neg hblocks, if_neg hparts, if_neg (not_not_intro hord),
      if_neg (by push_neg; exact ⟨h1, hcons⟩), if_neg (not_not_intro het),
      if_neg (not_not_intro hbp), hq]
  · exact check_quotas_error_forbidden _ _ _ _ _ _ hq

/-- Witness for C8 at a concrete input. -/
theorem handle_complete_quota_abort_spec_witness :
    handle_complete_multipart_upload
      ⟨fun _ => [0], 0, "k", 7, ⟨none, some 1⟩, 0, 0, fun _ => (0, 0)⟩
      [⟨"e1", 1⟩] (some ⟨0, "k", [⟨7, 5, .uploading ⟨"blob", []⟩⟩]⟩)
      (some ⟨7, 0, "k", false, [((1, 0), ⟨99, 5⟩)], [(1, "e1")]⟩) =
      ([.objectRow (Object.new 0 "k" [⟨7, 5, .aborted⟩])],
       .error (.forbidden
         "Bucket size quota is reached, maximum total size of objects for this bucket: 1")) :=
  (handle_complete_quota_abort_spec
    ⟨fun _ => [0], 0, "k", 7, ⟨none, some 1⟩, 0, 0, fun _ => (0, 0)⟩
    [⟨"e1", 1⟩] ⟨0, "k", [⟨7, 5, .uploading ⟨"blob", []⟩⟩]⟩
    ⟨7, 0, "k", false, [((1, 0), ⟨99, 5⟩)], [(1, "e1")]⟩
    ⟨7, 5, .uploading ⟨"blob", []⟩⟩
    (.forbidden
      "Bucket size quota is reached, maximum total size of objects for this bucket: 1")
    rfl (by decide) (by decide) (by decide) (by decide) (by decide) (by decide)
    (by decide) rfl).1

/-- Claim C7: every successful CompleteMultipartUpload with `k` request
parts returns the aggregate ETag
`hex(MD5(concat of stored part etag strings as raw bytes, stored order)) ++ "-" ++ k`,
and finalizes the object with a `Complete(FirstBlock)` version whose size is
the sum of the sizes of all blocks recorded in the version row. -/
theorem handle_complete_etag_spec :
    ∀ (env : CompleteEnv) (parts : List CompleteMultipartUploadPart)
      (obj : Object) (v : Version) (ws : List TableWrite) (etag : String),
      handle_complete_multipart_upload env parts (some obj) (some v) =
        (ws, .ok etag) →
      (etag = hexEncode (env.md5
          ((v.parts_etags.map (fun p => strBytes p.2)).flatten))
        ++ "-" ++ toString parts.length ∧
       ∃ ov hdrs,
         obj.versions.find? (fun w => w.uuid == env.version_uuid && w.is_uploading) =
           some ov ∧
         ov.state = .uploading hdrs ∧
         ws = [.objectRow (Object.new env.bucket_id env.key
           [{ ov with state := .complete (.first_block
               ⟨hdrs, (v.blocks.map (fun x => x.2.size)).sum, etag⟩
               (v.blocks.headD default).2.hash) }])]) := by
  intro env parts obj v ws etag h
  simp only [handle_complete_multipart_upload] at h
  split at h
  · simp at h
  rename_i ov hfind
  split at h
  · simp at h
  split at h
  · simp at h
  split at h
  · simp at h
  split at h
  · simp at h
  split at h
  · simp at h
  split at h
  · simp at h
  split at h
  · simp at h
  rename_i u hq
  rw [Prod.mk.injEq] at h
  obtain ⟨hws, hetag⟩ := h
  have hetag2 : hexEncode (env.md5
      ((v.parts_etags.map (fun p => strBytes p.2)).flatten))
      ++ "-" ++ toString parts.length = etag := Except.ok.inj hetag
  have hp := List.find?_some hfind
  have hup : ov.is_uploading = true := by
    rw [Bool.and_eq_true] at hp
    exact hp.2
  obtain ⟨hdrs, hst⟩ : ∃ hdrs, ov.state = .uploading hdrs := by
    unfold ObjectVersion.is_uploading at hup
    cases hstate : ov.state with
    | uploading hh => exact ⟨hh, rfl⟩
    | complete dd => rw [hstate] at hup; simp at hup
    | aborted => rw [hstate] at hup; simp at hup
  refine ⟨hetag2.symm, ov, hdrs, hfind, hst, ?_⟩
  rw [← hws, hst, hetag2]

/-- Witness for C7 at a concrete input. -/
theorem handle_complete_etag_spec_witness :
    "00-1" = hexEncode [0] ++ "-" ++ toString 1 :=
  (handle_complete_etag_spec
    ⟨fun _ => [0], 0, "k", 7, ⟨none, none⟩, 0, 0, fun _ => (0, 0)⟩
    [⟨"e1", 1⟩] ⟨0, "k", [⟨7, 5, .uploading ⟨"blob", []⟩⟩]⟩
    ⟨7, 0, "k", false, [((1, 0), ⟨99, 5⟩)], [(1, "e1")]⟩
    [.objectRow ⟨0, "k",
      [⟨7, 5, .complete (.first_block ⟨⟨"blob", []⟩, 5, "00-1"⟩ 99)⟩]⟩]
    "00-1" rfl).1

lemma run_eq_nil (c : StreamChunker) (h : c.next.1 = none) :
    ∀ fuel, StreamChunker.run fuel c = [] := by
  intro fuel
  cases fuel with
  | zero => rfl
  | succ f =>
    rw [run_succ]
    rcases hn : c.next with ⟨o, c2⟩
    rw [hn] at h
    simp at h
    subst h
    rfl

lemma chunkAll_eq_nil (bs : Nat) (body : List Bytes) (h : body.flatten = []) :
    chunkAll bs body = [] := by
  unfold chunkAll
  apply run_eq_nil
  apply next_none_of_empty
  unfold StreamChunker.sourceData StreamChunker.new
  simp [h]

/-- Claim C3: a single-object PUT whose first chunker block `B` is shorter
than `INLINE_THRESHOLD` and which passes checksum validation and the quota
check writes exactly one object row, holding a `Complete(Inline(meta, B))`
version with `meta.size = |B|` and `meta.etag` the lowercase hex MD5 of `B`;
no version row, no block-ref row and no `Uploading` state is ever written,
and the result is `(version_uuid, md5_hex)`. -/
theorem save_stream_inline_spec :
    ∀ (env : SaveStreamEnv) (body : List Bytes),
      ((chunkAll env.block_size body).headD []).length < env.inline_threshold →
      ensure_checksum_matches
        (env.md5 ((chunkAll env.block_size body).headD []))
        (env.sha256 ((chunkAll env.block_size body).headD []))
        env.content_md5 env.content_sha256 = .ok () →
      check_quotas env.quotas env.counter_objects env.counter_bytes
        ((chunkAll env.block_size body).headD []).length env.prev_counts = .ok () →
      save_stream env body =
        ([.objectRow (Object.new env.bucket_id env.key
          [⟨env.version_uuid, env.version_timestamp,
            .complete (.inline
              ⟨env.headers, ((chunkAll env.block_size body).headD []).length,
                hexEncode (env.md5 ((chunkAll env.block_size body).headD []))⟩
              ((chunkAll env.block_size body).headD []))⟩])],
         .ok (env.version_uuid,
           hexEncode (env.md5 ((chunkAll env.block_size body).headD [])))) := by
  intro env body hlen hck hq
  simp only [save_stream]
  rw [if_pos hlen, hck, hq]

/-- Witness for C3 at a concrete input. -/
theorem save_stream_inline_spec_witness :
    save_stream
      ⟨fun _ => [0], fun _ => [0], fun _ => 0, 4, 10, 0, "k", ⟨"blob", []⟩, 7, 5,
        none, none, ⟨none, none⟩, 0, 0, none⟩ [[1, 2]] =
      ([.objectRow ⟨0, "k",
        [⟨7, 5, .complete (.inline ⟨⟨"blob", []⟩, 2, "00"⟩ [1, 2])⟩]⟩],
       .ok (7, "00")) :=
  save_stream_inline_spec
    ⟨fun _ => [0], fun _ => [0], fun _ => 0, 4, 10, 0, "k", ⟨"blob", []⟩, 7, 5,
      none, none, ⟨none, none⟩, 0, 0, none⟩ [[1, 2]] (by decide) rfl rfl

/-- Claim C10: a single-object PUT whose body yields zero total bytes takes
the inline path with the empty byte string as its block (given a positive
`INLINE_THRESHOLD`): with passing checksums and quota the single write is a
`Complete(Inline)` object row of size 0, empty payload, and etag equal to
the MD5 of the empty input; no `Uploading`, version or block-ref row is
written. -/
theorem save_stream_empty_spec :
    ∀ (env : SaveStreamEnv) (body : List Bytes),
      body.flatten = [] →
      0 < env.inline_threshold →
      ensure_checksum_matches (env.md5 []) (env.sha256 [])
        env.content_md5 env.content_sha256 = .ok () →
      check_quotas env.quotas env.counter_objects env.counter_bytes 0
        env.prev_counts = .ok () →
      save_stream env body =
        ([.objectRow (Object.new env.bucket_id env.key
          [⟨env.version_uuid, env.version_timestamp,
            .complete (.inline ⟨env.headers, 0, hexEncode (env.md5 [])⟩ [])⟩])],
         .ok (env.version_uuid, hexEncode (env.md5 []))) := by
  intro env body hflat hthr hck hq
  have hchunk : chunkAll env.block_size body = [] := chunkAll_eq_nil _ _ hflat
  simp only [save_stream, hchunk, List.headD_nil, List.length_nil]
  rw [if_pos hthr, hck, hq]

/-- Witness for C10 at a concrete input (two empty chunks). -/
theorem save_stream_empty_spec_witness :
    save_stream
      ⟨fun _ => [0], fun _ => [0], fun _ => 0, 4, 10, 0, "k", ⟨"blob", []⟩, 7, 5,
        none, none, ⟨none, none⟩, 0, 0, none⟩ [[], []] =
      ([.objectRow ⟨0, "k",
        [⟨7, 5, .complete (.inline ⟨⟨"blob", []⟩, 0, "00"⟩ [])⟩]⟩],
       .ok (7, "00")) :=
  save_stream_empty_spec
    ⟨fun _ => [0], fun _ => [0], fun _ => 0, 4, 10, 0, "k", ⟨"blob", []⟩, 7, 5,
      none, none, ⟨none, none⟩, 0, 0, none⟩ [[], []] (by decide) (by decide) rfl rfl
